import Mathlib

/- Shallow embedding of qtserialbus src/serialbus/qmodbusserver.cpp
(QModbusServer and QModbusServerPrivate).  Machine integers are modeled as
Nat (payload bytes, decoded quint8/quint16 fields) and Int (the signed start
address of a QModbusDataUnit and the C++ int range arithmetic).  A C++
out-of-range QVector element write is undefined behavior; it is modeled as
the no-op of List.set on an out-of-range index. -/

/-- Register table kinds, QModbusDataUnit::RegisterType. -/
inductive RegisterType
  | Invalid
  | DiscreteInputs
  | Coils
  | InputRegisters
  | HoldingRegisters
deriving DecidableEq

/-- Modelled from the spec: QModbusDataUnit (its class is outside the two
given source files).  A register table carries its kind, a signed start
address, and the ordered sequence of stored 16-bit words indexed
0..valueCount-1. -/
structure QModbusDataUnit where
  registerType : RegisterType
  startAddress : Int
  values : List Nat
deriving DecidableEq

/-- QModbusDataUnit::valueCount, the length of the stored word sequence. -/
def QModbusDataUnit.valueCount (u : QModbusDataUnit) : Nat := u.values.length

/-- Modelled from the spec: a table is valid iff its kind is not Invalid. -/
def QModbusDataUnit.isValid (u : QModbusDataUnit) : Bool :=
  u.registerType != RegisterType.Invalid

/-- The four register tables owned by QModbusServerPrivate. -/
structure ServerState where
  m_discreteInputs : QModbusDataUnit
  m_coils : QModbusDataUnit
  m_inputRegisters : QModbusDataUnit
  m_holdingRegisters : QModbusDataUnit
deriving DecidableEq

/-- The switch over RegisterType shared by data()/setData(): Invalid yields
no table (the C++ returns false), any other kind selects its member table. -/
def ServerState.table? (st : ServerState) : RegisterType → Option QModbusDataUnit
  | RegisterType.Invalid => none
  | RegisterType.DiscreteInputs => some st.m_discreteInputs
  | RegisterType.Coils => some st.m_coils
  | RegisterType.InputRegisters => some st.m_inputRegisters
  | RegisterType.HoldingRegisters => some st.m_holdingRegisters

/-- Writing back through the pointer obtained from the RegisterType switch. -/
def ServerState.setTable (st : ServerState) : RegisterType → QModbusDataUnit → ServerState
  | RegisterType.Invalid, _ => st
  | RegisterType.DiscreteInputs, u => { st with m_discreteInputs := u }
  | RegisterType.Coils, u => { st with m_coils := u }
  | RegisterType.InputRegisters, u => { st with m_inputRegisters := u }
  | RegisterType.HoldingRegisters, u => { st with m_holdingRegisters := u }

/-- Modelled from the spec: a protocol data unit is a function code plus a
payload byte sequence. -/
structure QModbusPdu where
  functionCode : Nat
  data : List Nat
deriving DecidableEq

/-- Payload byte access; a read past the end of the payload is the
QDataStream behavior of producing 0. -/
def byteAt (bs : List Nat) (i : Nat) : Nat := bs.getD i 0

/-- Modelled from the spec: decodeData reads big-endian 16-bit fields. -/
def u16At (bs : List Nat) (i : Nat) : Nat := 256 * byteAt bs i + byteAt bs (i + 1)

/-- Big-endian encoding of a 16-bit field into response payload bytes. -/
def u16Bytes (v : Nat) : List Nat := [v / 256 % 256, v % 256]

/-- Modelled from the spec: a response is either a success response (function
code and payload) or an exception response (function code and exception
code). -/
inductive QModbusResponse
  | response (functionCode : Nat) (data : List Nat)
  | exception (functionCode : Nat) (exceptionCode : Nat)
deriving DecidableEq

/-- Modelled from the spec: exception code 1. -/
def IllegalFunction : Nat := 1

/-- Modelled from the spec: exception code 2. -/
def IllegalDataAddress : Nat := 2

/-- Modelled from the spec: exception code 3. -/
def IllegalDataValue : Nat := 3

/-- Modelled from the spec: the standard Modbus function code 0x01. -/
def ReadCoils : Nat := 0x01

/-- Modelled from the spec: the standard Modbus function code 0x02. -/
def ReadDiscreteInputs : Nat := 0x02

/-- Modelled from the spec: the standard Modbus function code 0x03. -/
def ReadHoldingRegisters : Nat := 0x03

/-- Modelled from the spec: the standard Modbus function code 0x04. -/
def ReadInputRegisters : Nat := 0x04

/-- Modelled from the spec: the standard Modbus function code 0x05. -/
def WriteSingleCoil : Nat := 0x05

/-- Modelled from the spec: the standard Modbus function code 0x06. -/
def WriteSingleRegister : Nat := 0x06

/-- Modelled from the spec: the standard Modbus function code 0x07. -/
def ReadExceptionStatus : Nat := 0x07

/-- Modelled from the spec: the standard Modbus function code 0x08. -/
def Diagnostics : Nat := 0x08

/-- Modelled from the spec: the standard Modbus function code 0x0B. -/
def GetCommEventCounter : Nat := 0x0B

/-- Modelled from the spec: the standard Modbus function code 0x0C. -/
def GetCommEventLog : Nat := 0x0C

/-- Modelled from the spec: the standard Modbus function code 0x0F. -/
def WriteMultipleCoils : Nat := 0x0F

/-- Modelled from the spec: the standard Modbus function code 0x10. -/
def WriteMultipleRegisters : Nat := 0x10

/- Register map accessors of QModbusServer. -/

/-- QVector element write at a C++ int index; a negative index is undefined
behavior in the source, modeled as a no-op, as is an out-of-range index. -/
def setValueAt (l : List Nat) (i : Int) (v : Nat) : List Nat :=
  if i < 0 then l else l.set i.toNat v

/-- The write loop of QModbusServer::setData(const QModbusDataUnit&): for i
from newData.startAddress to startAddress + valueCount - 1, current is
assigned newData.value(i - startAddress) at index i. -/
def writeRangeLoop (values src : List Nat) (start : Int) : List Nat :=
  (List.range src.length).foldl
    (fun acc (j : Nat) => setValueAt acc (start + (j : Int)) (src.getD j 0)) values

/-- QModbusServer::data(QModbusDataUnit *newData): range read, with the
negative-start branch returning the entire stored table. -/
def dataUnitRead (st : ServerState) (newData : QModbusDataUnit) : Option QModbusDataUnit :=
  match st.table? newData.registerType with
  | none => none
  | some current =>
    if newData.startAddress < 0 then some current
    else
      let internalRangeEndAddress : Int := current.startAddress + current.valueCount - 1
      if newData.startAddress < current.startAddress ∨
          newData.startAddress > internalRangeEndAddress then none
      else
        let rangeEndAddress : Int := newData.startAddress + newData.valueCount - 1
        if rangeEndAddress < current.startAddress ∨
            rangeEndAddress > internalRangeEndAddress then none
        else
          some { newData with
            values := (current.values.drop newData.startAddress.toNat).take newData.valueCount }

/-- QModbusServer::setData(RegisterType, quint16 address, quint16 data):
single element write, guarded by the table bounds check. -/
def setDataElement (st : ServerState) (table : RegisterType) (address value : Nat) :
    Option ServerState :=
  match st.table? table with
  | none => none
  | some u =>
    if ¬ u.isValid ∨ (address : Int) < u.startAddress ∨
        (address : Int) ≥ u.startAddress + u.valueCount then none
    else some (st.setTable table { u with values := u.values.set address value })

/-- QModbusServer::setData(const QModbusDataUnit &newData): range write,
guarded by the two range checks of the source. -/
def setDataUnit (st : ServerState) (newData : QModbusDataUnit) : Option ServerState :=
  match st.table? newData.registerType with
  | none => none
  | some current =>
    if ¬ current.isValid then none
    else
      let internalRangeEndAddress : Int := current.startAddress + current.valueCount - 1
      if newData.startAddress < current.startAddress ∨
          newData.startAddress > internalRangeEndAddress then none
      else
        let rangeEndAddress : Int := newData.startAddress + newData.valueCount - 1
        if rangeEndAddress < current.startAddress ∨
            rangeEndAddress > internalRangeEndAddress then none
        else
          some (st.setTable newData.registerType
            { current with
              values := writeRangeLoop current.values newData.values newData.startAddress })

/- Coil bit packing of processReadCoilsRequest. -/

/-- Bit j of a byte, as the 0-or-1 word a bitset element converts to. -/
def bitAt (b j : Nat) : Nat := b / 2 ^ j % 2

/-- The std::bitset<8> assembly of one byte from up to eight words: bit j is
set iff word j of the group converts to true, i.e. is nonzero. -/
def byteFromWords : List Nat → Nat
  | [] => 0
  | w :: ws => (if w ≠ 0 then 1 else 0) + 2 * byteFromWords ws

/-- The byte-building loop of processReadCoilsRequest: byteCount groups of
eight words, in address order. -/
def packWords : Nat → List Nat → List Nat
  | 0, _ => []
  | k + 1, ws => byteFromWords (ws.take 8) :: packWords k (ws.drop 8)

/-- QVector::resize with zero-initialized growth. -/
def qresize (l : List Nat) (m : Nat) : List Nat :=
  if l.length ≤ m then l ++ List.replicate (m - l.length) 0 else l.take m

/-- QVector::insert of cnt zero words at position pos. -/
def qinsert (l : List Nat) (pos cnt : Nat) : List Nat :=
  l.take pos ++ List.replicate cnt 0 ++ l.drop pos

/-- The byteCount computation and packing stage of processReadCoilsRequest,
applied to the words extracted from the coils table. -/
def packCoilBytes (numberOfCoils : Nat) (data : List Nat) : Nat × List Nat :=
  let byteCount := numberOfCoils / 8
  if data.length % 8 ≠ 0 then
    let byteCount := byteCount + 1
    let resized := qresize data (byteCount * 8)
    let inserted := qinsert resized numberOfCoils (byteCount * 8 - numberOfCoils)
    (byteCount, packWords byteCount inserted)
  else
    (byteCount, packWords byteCount data)

/-- QModbusServerPrivate::processReadCoilsRequest. -/
def processReadCoilsRequest (st : ServerState) (request : QModbusPdu) :
    QModbusResponse × ServerState :=
  let address := u16At request.data 0
  let numberOfCoils := u16At request.data 2
  if numberOfCoils < 0x0001 ∨ numberOfCoils > 0x07D0 then
    (QModbusResponse.exception request.functionCode IllegalDataValue, st)
  else if st.m_coils.startAddress > (address : Int) ∨
      st.m_coils.startAddress + st.m_coils.valueCount < (address : Int) + numberOfCoils then
    (QModbusResponse.exception request.functionCode IllegalDataAddress, st)
  else
    let bc := packCoilBytes numberOfCoils ((st.m_coils.values.drop address).take numberOfCoils)
    (QModbusResponse.response request.functionCode (bc.1 :: bc.2), st)

/-- QModbusServerPrivate::processWriteSingleCoilRequest.  The stored word is
the raw decoded value, written at index address of the values vector. -/
def processWriteSingleCoilRequest (st : ServerState) (request : QModbusPdu) :
    QModbusResponse × ServerState :=
  let address := u16At request.data 0
  let value := u16At request.data 2
  if value ≠ 0x0000 ∧ value ≠ 0xFF00 then
    (QModbusResponse.exception request.functionCode IllegalDataValue, st)
  else if st.m_coils.startAddress > (address : Int) ∨
      st.m_coils.startAddress + st.m_coils.valueCount < (address : Int) then
    (QModbusResponse.exception request.functionCode IllegalDataAddress, st)
  else
    (QModbusResponse.response request.functionCode (u16Bytes address ++ u16Bytes value),
      { st with m_coils := { st.m_coils with values := st.m_coils.values.set address value } })

/-- The inner bit loop of processWriteMultipleCoilsRequest: for currentBit
from nbits - 1 down to 0, the coil counter is pre-decremented and bit
currentBit of the byte is stored at index coil of the vector. -/
def writeByteBits (b : Nat) : Nat → Nat → List Nat → List Nat × Nat
  | 0, coil, values => (values, coil)
  | m + 1, coil, values => writeByteBits b m (coil - 1) (values.set (coil - 1) (bitAt b m))

/-- The outer byte loop of processWriteMultipleCoilsRequest, iterating the
reversed payload bytes; the first byte uses the partial bit count, every
further byte a full eight bits. -/
def writeAllBytes : List Nat → Nat → Nat → List Nat → List Nat × Nat
  | [], _, coil, values => (values, coil)
  | b :: rest, nbits, coil, values =>
    let p := writeByteBits b nbits coil values
    writeAllBytes rest 8 p.2 p.1

/-- QModbusServerPrivate::processWriteMultipleCoilsRequest.  The quint8
truncation of the expectedBytes accumulator is kept explicit. -/
def processWriteMultipleCoilsRequest (st : ServerState) (request : QModbusPdu) :
    QModbusResponse × ServerState :=
  let address := u16At request.data 0
  let numberOfCoils := u16At request.data 2
  let byteCount := byteAt request.data 4
  let expectedBytes := (numberOfCoils / 8 % 256 + if numberOfCoils % 8 ≠ 0 then 1 else 0) % 256
  if numberOfCoils < 0x0001 ∨ numberOfCoils > 0x07B0 ∨ expectedBytes ≠ byteCount then
    (QModbusResponse.exception request.functionCode IllegalDataValue, st)
  else if st.m_coils.startAddress > (address : Int) ∨
      st.m_coils.startAddress + st.m_coils.valueCount < (address : Int) + numberOfCoils then
    (QModbusResponse.exception request.functionCode IllegalDataAddress, st)
  else
    let payload := request.data.drop 5
    let values := (writeAllBytes payload.reverse
      ((8 - ((byteCount : Int) * 8 - (numberOfCoils : Int))).toNat)
      (address + numberOfCoils) st.m_coils.values).1
    (QModbusResponse.response request.functionCode (u16Bytes address ++ u16Bytes numberOfCoils),
      { st with m_coils := { st.m_coils with values := values } })

/-- QModbusServer::processCustomRequest, default implementation: an
IllegalFunction exception carrying the request's function code. -/
def processCustomRequest (request : QModbusPdu) : QModbusResponse :=
  QModbusResponse.exception request.functionCode IllegalFunction

/-- QModbusServerPrivate::processRequest: the switch over the function code
with its fallthrough groups, defaulting to processCustomRequest. -/
def processRequest (st : ServerState) (request : QModbusPdu) :
    QModbusResponse × ServerState :=
  if request.functionCode = ReadCoils then
    processReadCoilsRequest st request
  else if request.functionCode = ReadDiscreteInputs ∨
      request.functionCode = ReadHoldingRegisters ∨
      request.functionCode = ReadInputRegisters ∨
      request.functionCode = WriteSingleCoil then
    processWriteSingleCoilRequest st request
  else if request.functionCode = WriteSingleRegister ∨
      request.functionCode = ReadExceptionStatus ∨
      request.functionCode = Diagnostics ∨
      request.functionCode = GetCommEventCounter ∨
      request.functionCode = GetCommEventLog ∨
      request.functionCode = WriteMultipleCoils then
    processWriteMultipleCoilsRequest st request
  else
    (processCustomRequest request, st)

/-- The Write Multiple Coils unpacking algorithm as a standalone function:
the byte loop run over exactly the given bytes, with the coil counter
starting at numberOfCoils over a zeroed vector of that length. -/
def unpackCoils (numberOfCoils : Nat) (bytes : List Nat) : List Nat :=
  (writeAllBytes bytes.reverse
    ((8 - ((bytes.length : Int) * 8 - (numberOfCoils : Int))).toNat)
    numberOfCoils (List.replicate numberOfCoils 0)).1

/-- Total number of bit-write iterations the outer byte loop performs: the
first byte contributes its partial bit count, each further byte eight. -/
def totalBits : List Nat → Nat → Nat
  | [], _ => 0
  | _ :: rest, nbits => nbits + 8 * rest.length

/-- C1: the dispatcher routes ReadDiscreteInputs (0x02) into the
write-single-coil handler through switch fallthrough, so a 0x02 request is
answered with that handler's IllegalDataValue exception instead of the
extension hook's IllegalFunction exception the claim requires. -/
theorem dispatch_fallthrough_eval :
    processRequest
      ⟨⟨RegisterType.Invalid, 0, []⟩, ⟨RegisterType.Coils, 0, List.replicate 10 0⟩,
        ⟨RegisterType.Invalid, 0, []⟩, ⟨RegisterType.Invalid, 0, []⟩⟩
      ⟨ReadDiscreteInputs, [0, 0, 0, 1]⟩ =
      (QModbusResponse.exception ReadDiscreteInputs IllegalDataValue,
        ⟨⟨RegisterType.Invalid, 0, []⟩, ⟨RegisterType.Coils, 0, List.replicate 10 0⟩,
          ⟨RegisterType.Invalid, 0, []⟩, ⟨RegisterType.Invalid, 0, []⟩⟩) ∧
    QModbusResponse.exception ReadDiscreteInputs IllegalDataValue ≠
      processCustomRequest ⟨ReadDiscreteInputs, [0, 0, 0, 1]⟩ := by
  constructor
  · decide
  · decide

/-- C2: the write-single-coil bounds check accepts the boundary address
startAddress + valueCount (its comparison is strict in the wrong direction),
so address 10 on a 10-coil table starting at 0 yields a success echo and an
out-of-range vector write instead of the IllegalDataAddress exception the
claim requires. -/
theorem writeSingleCoil_boundary_eval :
    processWriteSingleCoilRequest
      ⟨⟨RegisterType.Invalid, 0, []⟩, ⟨RegisterType.Coils, 0, List.replicate 10 0⟩,
        ⟨RegisterType.Invalid, 0, []⟩, ⟨RegisterType.Invalid, 0, []⟩⟩
      ⟨WriteSingleCoil, [0, 10, 0xFF, 0x00]⟩ =
      (QModbusResponse.response WriteSingleCoil [0, 10, 0xFF, 0x00],
        ⟨⟨RegisterType.Invalid, 0, []⟩, ⟨RegisterType.Coils, 0, List.replicate 10 0⟩,
          ⟨RegisterType.Invalid, 0, []⟩, ⟨RegisterType.Invalid, 0, []⟩⟩) ∧
    ¬ ((10 : Int) <
        (⟨RegisterType.Coils, 0, List.replicate 10 0⟩ : QModbusDataUnit).startAddress +
        (⟨RegisterType.Coils, 0, List.replicate 10 0⟩ : QModbusDataUnit).valueCount) := by
  constructor
  · decide
  · decide

/-- C3 counterexample: a successful Write Single Coil with value 0xFF00
stores the raw word 0xFF00 at the addressed position, not the word 1, so
dispatching a request does not preserve the 0-or-1 coils invariant. -/
theorem writeSingleCoil_raw_value_counterexample :
    ((processWriteSingleCoilRequest
      ⟨⟨RegisterType.Invalid, 0, []⟩, ⟨RegisterType.Coils, 0, List.replicate 10 0⟩,
        ⟨RegisterType.Invalid, 0, []⟩, ⟨RegisterType.Invalid, 0, []⟩⟩
      ⟨WriteSingleCoil, [0, 5, 0xFF, 0x00]⟩).2.m_coils.values.getD 5 0 = 0xFF00) ∧
    (0xFF00 : Nat) ≠ 1 := by
  constructor
  · decide
  · decide

/-- C4: the read-coils extraction indexes the values vector with the raw
logical address instead of address - startAddress.  On a table with
startAddress 1 and words [0, 1], reading one coil at logical address 2
passes validation but extracts nothing (byteCount 0, empty payload) rather
than the stored word 1; symmetrically the multiple-coils write at address 2
lands outside the vector and changes nothing. -/
theorem readCoils_offset_eval :
    (processReadCoilsRequest
      ⟨⟨RegisterType.Invalid, 0, []⟩, ⟨RegisterType.Coils, 1, [0, 1]⟩,
        ⟨RegisterType.Invalid, 0, []⟩, ⟨RegisterType.Invalid, 0, []⟩⟩
      ⟨ReadCoils, [0, 2, 0, 1]⟩).1 = QModbusResponse.response ReadCoils [0] ∧
    QModbusResponse.response ReadCoils [0] ≠ QModbusResponse.response ReadCoils [1, 1] ∧
    processWriteMultipleCoilsRequest
      ⟨⟨RegisterType.Invalid, 0, []⟩, ⟨RegisterType.Coils, 1, [0, 1]⟩,
        ⟨RegisterType.Invalid, 0, []⟩, ⟨RegisterType.Invalid, 0, []⟩⟩
      ⟨WriteMultipleCoils, [0, 2, 0, 1, 1, 0]⟩ =
      (QModbusResponse.response WriteMultipleCoils [0, 2, 0, 1],
        ⟨⟨RegisterType.Invalid, 0, []⟩, ⟨RegisterType.Coils, 1, [0, 1]⟩,
          ⟨RegisterType.Invalid, 0, []⟩, ⟨RegisterType.Invalid, 0, []⟩⟩) := by
  refine ⟨?_, ?_, ?_⟩
  · decide
  · decide
  · decide

/-- C8: setData validates logical addresses against the configured bounds
but then uses the raw logical address as the vector index.  On a one-word
coils table with startAddress 3, both the range write of [9] at address 3
and the element write of 9 at address 3 report success while the stored
word 7 is left untouched (the write lands outside the vector, undefined
behavior in the C++). -/
theorem setData_offset_eval :
    setDataUnit
      ⟨⟨RegisterType.Invalid, 0, []⟩, ⟨RegisterType.Coils, 3, [7]⟩,
        ⟨RegisterType.Invalid, 0, []⟩, ⟨RegisterType.Invalid, 0, []⟩⟩
      ⟨RegisterType.Coils, 3, [9]⟩ =
      some ⟨⟨RegisterType.Invalid, 0, []⟩, ⟨RegisterType.Coils, 3, [7]⟩,
        ⟨RegisterType.Invalid, 0, []⟩, ⟨RegisterType.Invalid, 0, []⟩⟩ ∧
    setDataElement
      ⟨⟨RegisterType.Invalid, 0, []⟩, ⟨RegisterType.Coils, 3, [7]⟩,
        ⟨RegisterType.Invalid, 0, []⟩, ⟨RegisterType.Invalid, 0, []⟩⟩
      RegisterType.Coils 3 9 =
      some ⟨⟨RegisterType.Invalid, 0, []⟩, ⟨RegisterType.Coils, 3, [7]⟩,
        ⟨RegisterType.Invalid, 0, []⟩, ⟨RegisterType.Invalid, 0, []⟩⟩ := by
  constructor
  · decide
  · decide

/- Helper lemmas about the register map accessors. -/

lemma getD_set_or (l : List Nat) (i v p : Nat) :
    (l.set i v).getD p 0 = l.getD p 0 ∨ (l.set i v).getD p 0 = v := by
  by_cases hpi : i = p
  · subst hpi
    by_cases hl : i < l.length
    · right
      simp [List.getD_eq_getElem?_getD, List.getElem?_set_self', hl]
    · left
      rw [List.set_eq_of_length_le (Nat.le_of_not_lt hl)]
  · left
    simp [List.getD_eq_getElem?_getD, List.getElem?_set_ne hpi]

lemma bitAt_le_one (b j : Nat) : bitAt b j ≤ 1 :=
  Nat.le_of_lt_succ (Nat.mod_lt _ (by norm_num))

lemma writeByteBits_getD_or (b : Nat) (m coil : Nat) (values : List Nat) (p : Nat) :
    (writeByteBits b m coil values).1.getD p 0 = values.getD p 0 ∨
    (writeByteBits b m coil values).1.getD p 0 ≤ 1 := by
  induction m generalizing coil values with
  | zero => exact Or.inl rfl
  | succ m ih =>
    rw [writeByteBits]
    rcases ih (coil - 1) (values.set (coil - 1) (bitAt b m)) with h | h
    · rcases getD_set_or values (coil - 1) (bitAt b m) p with h2 | h2
      · exact Or.inl (h.trans h2)
      · refine Or.inr ?_
        rw [h, h2]
        exact bitAt_le_one b m
    · exact Or.inr h

lemma writeAllBytes_getD_or (bytes : List Nat) (nbits coil : Nat) (values : List Nat) (p : Nat) :
    (writeAllBytes bytes nbits coil values).1.getD p 0 = values.getD p 0 ∨
    (writeAllBytes bytes nbits coil values).1.getD p 0 ≤ 1 := by
  induction bytes generalizing nbits coil values with
  | nil => exact Or.inl rfl
  | cons b rest ih =>
    simp only [writeAllBytes]
    rcases ih 8 (writeByteBits b nbits coil values).2 (writeByteBits b nbits coil values).1
      with h | h
    · rw [h]
      exact writeByteBits_getD_or b nbits coil values p
    · exact Or.inr h

/-- C7: for a readRange query with a valid register kind and a negative start
address, data(QModbusDataUnit*) succeeds and replaces the query unit with a
copy of the entire stored table of that kind, regardless of the queried
valueCount and of the stored contents. -/
theorem readRange_negative_start (st : ServerState) (u cur : QModbusDataUnit)
    (h : st.table? u.registerType = some cur) (hneg : u.startAddress < 0) :
    dataUnitRead st u = some cur := by
  simp only [dataUnitRead, h]
  rw [if_pos hneg]

/-- C7 witness: a concrete whole-table read with start address -1 and a query
valueCount different from the table's length. -/
theorem readRange_negative_start_witness :
    dataUnitRead
      ⟨⟨RegisterType.Invalid, 0, []⟩, ⟨RegisterType.Coils, 2, [5, 6]⟩,
        ⟨RegisterType.Invalid, 0, []⟩, ⟨RegisterType.Invalid, 0, []⟩⟩
      ⟨RegisterType.Coils, -1, [0, 0, 0]⟩ = some ⟨RegisterType.Coils, 2, [5, 6]⟩ :=
  readRange_negative_start
    ⟨⟨RegisterType.Invalid, 0, []⟩, ⟨RegisterType.Coils, 2, [5, 6]⟩,
      ⟨RegisterType.Invalid, 0, []⟩, ⟨RegisterType.Invalid, 0, []⟩⟩
    ⟨RegisterType.Coils, -1, [0, 0, 0]⟩ ⟨RegisterType.Coils, 2, [5, 6]⟩ rfl (by decide)

/-- C10: on a valid table with non-negative start address, a readRange or
writeRange query at exactly the table's start address with valueCount 0 is
rejected (the computed range end falls below the table start), while any
query there with valueCount at least 1 that fits inside the table
succeeds. -/
theorem empty_range_rejected (st : ServerState) (u cur : QModbusDataUnit)
    (h : st.table? u.registerType = some cur)
    (hv : cur.registerType ≠ RegisterType.Invalid)
    (hs : 0 ≤ cur.startAddress)
    (he : u.startAddress = cur.startAddress) :
    (u.valueCount = 0 → dataUnitRead st u = none ∧ setDataUnit st u = none) ∧
    (1 ≤ u.valueCount → u.valueCount ≤ cur.valueCount →
      (dataUnitRead st u).isSome ∧ (setDataUnit st u).isSome) := by
  have hval : (¬ cur.isValid) = False := by
    simp [QModbusDataUnit.isValid, hv]
  have hnneg : ¬ u.startAddress < 0 := by omega
  constructor
  · intro h0
    constructor
    · simp only [dataUnitRead, h, if_neg hnneg]
      split_ifs with h1 h2
      · rfl
      · rfl
      · exfalso
        rcases not_or.mp h2 with ⟨h2a, _⟩
        rw [he, h0] at h2a
        omega
    · simp only [setDataUnit, h, hval, if_false]
      split_ifs with h1 h2
      · rfl
      · rfl
      · exfalso
        rcases not_or.mp h2 with ⟨h2a, _⟩
        rw [he, h0] at h2a
        omega
  · intro h1 h2
    have hc1 : ¬ (u.startAddress < cur.startAddress ∨
        u.startAddress > cur.startAddress + (cur.valueCount : Int) - 1) := by
      rw [he]
      omega
    have hc2 : ¬ (u.startAddress + (u.valueCount : Int) - 1 < cur.startAddress ∨
        u.startAddress + (u.valueCount : Int) - 1 > cur.startAddress + (cur.valueCount : Int) - 1) := by
      rw [he]
      omega
    constructor
    · simp only [dataUnitRead, h, if_neg hnneg, if_neg hc1, if_neg hc2]
      rfl
    · simp only [setDataUnit, h, hval, if_false, if_neg hc1, if_neg hc2]
      rfl

/-- C10 witness: on a two-word coils table starting at 0, the empty range at
address 0 is rejected for both read and write while the one-word range there
succeeds. -/
theorem empty_range_rejected_witness :
    (dataUnitRead
      ⟨⟨RegisterType.Invalid, 0, []⟩, ⟨RegisterType.Coils, 0, [4, 5]⟩,
        ⟨RegisterType.Invalid, 0, []⟩, ⟨RegisterType.Invalid, 0, []⟩⟩
      ⟨RegisterType.Coils, 0, []⟩ = none) ∧
    (setDataUnit
      ⟨⟨RegisterType.Invalid, 0, []⟩, ⟨RegisterType.Coils, 0, [4, 5]⟩,
        ⟨RegisterType.Invalid, 0, []⟩, ⟨RegisterType.Invalid, 0, []⟩⟩
      ⟨RegisterType.Coils, 0, []⟩ = none) ∧
    (dataUnitRead
      ⟨⟨RegisterType.Invalid, 0, []⟩, ⟨RegisterType.Coils, 0, [4, 5]⟩,
        ⟨RegisterType.Invalid, 0, []⟩, ⟨RegisterType.Invalid, 0, []⟩⟩
      ⟨RegisterType.Coils, 0, [9]⟩).isSome ∧
    (setDataUnit
      ⟨⟨RegisterType.Invalid, 0, []⟩, ⟨RegisterType.Coils, 0, [4, 5]⟩,
        ⟨RegisterType.Invalid, 0, []⟩, ⟨RegisterType.Invalid, 0, []⟩⟩
      ⟨RegisterType.Coils, 0, [9]⟩).isSome :=
  ⟨((empty_range_rejected
      ⟨⟨RegisterType.Invalid, 0, []⟩, ⟨RegisterType.Coils, 0, [4, 5]⟩,
        ⟨RegisterType.Invalid, 0, []⟩, ⟨RegisterType.Invalid, 0, []⟩⟩
      ⟨RegisterType.Coils, 0, []⟩ ⟨RegisterType.Coils, 0, [4, 5]⟩ rfl (by decide) (by decide)
      rfl).1 rfl).1,
    ((empty_range_rejected
      ⟨⟨RegisterType.Invalid, 0, []⟩, ⟨RegisterType.Coils, 0, [4, 5]⟩,
        ⟨RegisterType.Invalid, 0, []⟩, ⟨RegisterType.Invalid, 0, []⟩⟩
      ⟨RegisterType.Coils, 0, []⟩ ⟨RegisterType.Coils, 0, [4, 5]⟩ rfl (by decide) (by decide)
      rfl).1 rfl).2,
    ((empty_range_rejected
      ⟨⟨RegisterType.Invalid, 0, []⟩, ⟨RegisterType.Coils, 0, [4, 5]⟩,
        ⟨RegisterType.Invalid, 0, []⟩, ⟨RegisterType.Invalid, 0, []⟩⟩
      ⟨RegisterType.Coils, 0, [9]⟩ ⟨RegisterType.Coils, 0, [4, 5]⟩ rfl (by decide) (by decide)
      rfl).2 (by decide) (by decide)).1,
    ((empty_range_rejected
      ⟨⟨RegisterType.Invalid, 0, []⟩, ⟨RegisterType.Coils, 0, [4, 5]⟩,
        ⟨RegisterType.Invalid, 0, []⟩, ⟨RegisterType.Invalid, 0, []⟩⟩
      ⟨RegisterType.Coils, 0, [9]⟩ ⟨RegisterType.Coils, 0, [4, 5]⟩ rfl (by decide) (by decide)
      rfl).2 (by decide) (by decide)).2⟩

/-- C3 amended: a non-exceptional Write Single Coil stores the raw decoded
value word (0x0000 or 0xFF00, not the boolean 0 or 1) at index address, and
a Write Multiple Coils leaves every word of the coils table either unchanged
or holding a 0-or-1 bit value. -/
theorem coil_write_amended (st : ServerState) (request : QModbusPdu) :
    ((processWriteSingleCoilRequest st request).2.m_coils.values = st.m_coils.values ∨
      (processWriteSingleCoilRequest st request).2.m_coils.values =
        st.m_coils.values.set (u16At request.data 0) (u16At request.data 2)) ∧
    (∀ p : Nat, (processWriteMultipleCoilsRequest st request).2.m_coils.values.getD p 0 =
        st.m_coils.values.getD p 0 ∨
      (processWriteMultipleCoilsRequest st request).2.m_coils.values.getD p 0 ≤ 1) := by
  constructor
  · simp only [processWriteSingleCoilRequest]
    split_ifs
    · exact Or.inl rfl
    · exact Or.inl rfl
    · exact Or.inr rfl
  · intro p
    simp only [processWriteMultipleCoilsRequest]
    split_ifs <;> first
      | exact Or.inl rfl
      | exact writeAllBytes_getD_or _ _ _ _ p

/-- C6: a Write Multiple Coils request draws an IllegalDataValue exception
exactly when the decoded count is outside 1..1968 or the decoded byte count
differs from ceil(count/8); and any exception response leaves the server
state, in particular the coils table, unchanged. -/
theorem writeMultipleCoils_validation (st : ServerState) (request : QModbusPdu) :
    ((processWriteMultipleCoilsRequest st request).1 =
        QModbusResponse.exception request.functionCode IllegalDataValue ↔
      (u16At request.data 2 < 1 ∨ 1968 < u16At request.data 2 ∨
        byteAt request.data 4 ≠ (u16At request.data 2 + 7) / 8)) ∧
    (∀ fc ec, (processWriteMultipleCoilsRequest st request).1 = QModbusResponse.exception fc ec →
      (processWriteMultipleCoilsRequest st request).2 = st) := by
  simp only [processWriteMultipleCoilsRequest]
  split_ifs
  all_goals refine ⟨⟨fun heq => ?_, fun hr => ?_⟩, fun fc ec heq => ?_⟩
  all_goals first
    | rfl
    | omega
    | exact heq.elim
    | simp [IllegalDataAddress, IllegalDataValue] at heq

/-- C6 witness: a count of zero is rejected with IllegalDataValue and the
state is unchanged. -/
theorem writeMultipleCoils_validation_witness :
    ((processWriteMultipleCoilsRequest
      ⟨⟨RegisterType.Invalid, 0, []⟩, ⟨RegisterType.Coils, 0, [0]⟩,
        ⟨RegisterType.Invalid, 0, []⟩, ⟨RegisterType.Invalid, 0, []⟩⟩
      ⟨WriteMultipleCoils, [0, 0, 0, 0, 0]⟩).1 =
      QModbusResponse.exception WriteMultipleCoils IllegalDataValue) ∧
    ((processWriteMultipleCoilsRequest
      ⟨⟨RegisterType.Invalid, 0, []⟩, ⟨RegisterType.Coils, 0, [0]⟩,
        ⟨RegisterType.Invalid, 0, []⟩, ⟨RegisterType.Invalid, 0, []⟩⟩
      ⟨WriteMultipleCoils, [0, 0, 0, 0, 0]⟩).2 =
      ⟨⟨RegisterType.Invalid, 0, []⟩, ⟨RegisterType.Coils, 0, [0]⟩,
        ⟨RegisterType.Invalid, 0, []⟩, ⟨RegisterType.Invalid, 0, []⟩⟩) :=
  ⟨(writeMultipleCoils_validation
      ⟨⟨RegisterType.Invalid, 0, []⟩, ⟨RegisterType.Coils, 0, [0]⟩,
        ⟨RegisterType.Invalid, 0, []⟩, ⟨RegisterType.Invalid, 0, []⟩⟩
      ⟨WriteMultipleCoils, [0, 0, 0, 0, 0]⟩).1.mpr (by decide),
    (writeMultipleCoils_validation
      ⟨⟨RegisterType.Invalid, 0, []⟩, ⟨RegisterType.Coils, 0, [0]⟩,
        ⟨RegisterType.Invalid, 0, []⟩, ⟨RegisterType.Invalid, 0, []⟩⟩
      ⟨WriteMultipleCoils, [0, 0, 0, 0, 0]⟩).2 WriteMultipleCoils IllegalDataValue
      ((writeMultipleCoils_validation
        ⟨⟨RegisterType.Invalid, 0, []⟩, ⟨RegisterType.Coils, 0, [0]⟩,
          ⟨RegisterType.Invalid, 0, []⟩, ⟨RegisterType.Invalid, 0, []⟩⟩
        ⟨WriteMultipleCoils, [0, 0, 0, 0, 0]⟩).1.mpr (by decide))⟩

/- Frame lemmas for the request handlers. -/

lemma processReadCoilsRequest_state (st : ServerState) (request : QModbusPdu) :
    (processReadCoilsRequest st request).2 = st := by
  simp only [processReadCoilsRequest]
  split_ifs <;> rfl

lemma processWriteSingleCoilRequest_frame (st : ServerState) (request : QModbusPdu) :
    (processWriteSingleCoilRequest st request).2.m_discreteInputs = st.m_discreteInputs ∧
    (processWriteSingleCoilRequest st request).2.m_inputRegisters = st.m_inputRegisters ∧
    (processWriteSingleCoilRequest st request).2.m_holdingRegisters = st.m_holdingRegisters := by
  simp only [processWriteSingleCoilRequest]
  split_ifs <;> exact ⟨rfl, rfl, rfl⟩

lemma processWriteMultipleCoilsRequest_frame (st : ServerState) (request : QModbusPdu) :
    (processWriteMultipleCoilsRequest st request).2.m_discreteInputs = st.m_discreteInputs ∧
    (processWriteMultipleCoilsRequest st request).2.m_inputRegisters = st.m_inputRegisters ∧
    (processWriteMultipleCoilsRequest st request).2.m_holdingRegisters = st.m_holdingRegisters := by
  simp only [processWriteMultipleCoilsRequest]
  split_ifs <;> exact ⟨rfl, rfl, rfl⟩

/-- C9: dispatching any request can modify at most the coils table: the
discrete-inputs, input-registers and holding-registers tables after
processRequest are those of the incoming state. -/
theorem processRequest_frame (st : ServerState) (request : QModbusPdu) :
    (processRequest st request).2.m_discreteInputs = st.m_discreteInputs ∧
    (processRequest st request).2.m_inputRegisters = st.m_inputRegisters ∧
    (processRequest st request).2.m_holdingRegisters = st.m_holdingRegisters := by
  simp only [processRequest]
  split_ifs
  · rw [processReadCoilsRequest_state]
    exact ⟨rfl, rfl, rfl⟩
  · exact processWriteSingleCoilRequest_frame st request
  · exact processWriteMultipleCoilsRequest_frame st request
  · exact ⟨rfl, rfl, rfl⟩

/- Bit-level lemmas for the coil packing round trip. -/

lemma div_two_pow_succ_mod (b x j : Nat) (hb : b ≤ 1) :
    (b + 2 * x) / 2 ^ (j + 1) % 2 = x / 2 ^ j % 2 := by
  have h2 : (2 : Nat) ^ (j + 1) = 2 * 2 ^ j := by ring
  rw [h2, ← Nat.div_div_eq_div_mul]
  congr 2
  omega

lemma bitAt_byteFromWords (ws : List Nat) (j : Nat) :
    bitAt (byteFromWords ws) j = if ws.getD j 0 ≠ 0 then 1 else 0 := by
  induction ws generalizing j with
  | nil => simp [byteFromWords, bitAt]
  | cons w ws ih =>
    cases j with
    | zero =>
      simp only [byteFromWords, bitAt, pow_zero, Nat.div_one, List.getD_cons_zero]
      by_cases hw : w = 0 <;> simp [hw]
    | succ j =>
      simp only [byteFromWords, bitAt, List.getD_cons_succ]
      rw [div_two_pow_succ_mod _ _ _ (by split <;> omega)]
      exact ih j

lemma writeByteBits_snd (b : Nat) (m coil : Nat) (values : List Nat) :
    (writeByteBits b m coil values).2 = coil - m := by
  induction m generalizing coil values with
  | zero => simp [writeByteBits]
  | succ m ih =>
    rw [writeByteBits, ih]
    omega

lemma set_drop_cons (l : List Nat) (i v : Nat) (h : i < l.length) :
    (l.set i v).drop i = v :: l.drop (i + 1) := by
  rw [List.set_eq_take_append_cons_drop]
  simp [h]
  rw [List.drop_append_of_le_length (by simp [Nat.le_of_lt h])]
  simp [Nat.min_eq_left (Nat.le_of_lt h)]

lemma writeByteBits_full (b : Nat) (m : Nat) (l : List Nat) (h : m ≤ l.length) :
    (writeByteBits b m m l).1 = (List.range m).map (bitAt b) ++ l.drop m := by
  induction m generalizing l with
  | zero => simp [writeByteBits]
  | succ m ih =>
    rw [writeByteBits]
    simp only [Nat.add_sub_cancel]
    rw [ih (l.set m (bitAt b m)) (by simp at h ⊢; omega)]
    rw [set_drop_cons l m (bitAt b m) (by omega)]
    rw [List.range_succ, List.map_append]
    simp

lemma set_shift (pre l : List Nat) (i v : Nat) :
    (pre ++ l).set (pre.length + i) v = pre ++ l.set i v := by
  simp [List.set_append_right]

lemma writeByteBits_shift (b : Nat) (m : Nat) (pre l : List Nat) (coil : Nat) (h : m ≤ coil) :
    writeByteBits b m (pre.length + coil) (pre ++ l) =
      (pre ++ (writeByteBits b m coil l).1, pre.length + (writeByteBits b m coil l).2) := by
  induction m generalizing coil l with
  | zero => simp [writeByteBits]
  | succ m ih =>
    simp only [writeByteBits]
    have h1 : pre.length + coil - 1 = pre.length + (coil - 1) := by omega
    rw [h1, set_shift]
    exact ih (l.set (coil - 1) (bitAt b m)) (coil - 1) (by omega)

lemma totalBits_le_eight_mul (rbs : List Nat) : totalBits rbs 8 ≤ 8 * rbs.length := by
  cases rbs with
  | nil => simp [totalBits]
  | cons b rest =>
    simp [totalBits]
    omega

lemma writeAllBytes_shift (rbs : List Nat) (nbits : Nat) (pre l : List Nat) (coil : Nat)
    (h : totalBits rbs nbits ≤ coil) :
    writeAllBytes rbs nbits (pre.length + coil) (pre ++ l) =
      (pre ++ (writeAllBytes rbs nbits coil l).1,
        pre.length + (writeAllBytes rbs nbits coil l).2) := by
  induction rbs generalizing nbits coil l with
  | nil => simp [writeAllBytes]
  | cons b rest ih =>
    simp only [writeAllBytes]
    have hnb : nbits ≤ coil := by
      simp [totalBits] at h
      omega
    rw [writeByteBits_shift b nbits pre l coil hnb]
    dsimp only
    rw [writeByteBits_snd]
    exact ih 8 (writeByteBits b nbits coil l).1 (coil - nbits) (by
      have := totalBits_le_eight_mul rest
      simp [totalBits] at h
      omega)

lemma writeAllBytes_append (rbs : List Nat) (x b : Nat) (nbits coil : Nat) (values : List Nat) :
    writeAllBytes (x :: rbs ++ [b]) nbits coil values =
      writeByteBits b 8 (writeAllBytes (x :: rbs) nbits coil values).2
        (writeAllBytes (x :: rbs) nbits coil values).1 := by
  induction rbs generalizing x nbits coil values with
  | nil =>
    simp only [List.cons_append, List.nil_append, writeAllBytes]
  | cons y rest ih =>
    simp only [List.cons_append] at ih ⊢
    rw [writeAllBytes]
    rw [ih y 8 (writeByteBits x nbits coil values).2 (writeByteBits x nbits coil values).1]
    rw [show writeAllBytes (x :: y :: rest) nbits coil values =
        writeAllBytes (y :: rest) 8 (writeByteBits x nbits coil values).2
          (writeByteBits x nbits coil values).1 from rfl]

lemma range_map_bitAt (ws tail : List Nat) (hw : ∀ w ∈ ws, w ≤ 1) :
    (List.range ws.length).map (bitAt (byteFromWords (ws ++ tail))) = ws := by
  apply List.ext_getElem
  · simp
  · intro i h1 h2
    simp only [List.getElem_map, List.getElem_range]
    rw [bitAt_byteFromWords]
    rw [show (ws ++ tail).getD i 0 = ws.getD i 0 from by
      simp [List.getD_eq_getElem?_getD, List.getElem?_append_left h2]]
    rw [List.getD_eq_getElem ws 0 h2]
    have hle := hw ws[i] (List.getElem_mem h2)
    by_cases hz : ws[i] = 0
    · simp [hz]
    · have hone : ws[i] = 1 := by omega
      simp [hone]

lemma packWords_length (k : Nat) (l : List Nat) : (packWords k l).length = k := by
  induction k generalizing l with
  | zero => rfl
  | succ k ih => simp [packWords, ih]

lemma packWords_append_extra (k : Nat) (l extra : List Nat) (h : 8 * k ≤ l.length) :
    packWords k (l ++ extra) = packWords k l := by
  induction k generalizing l with
  | zero => rfl
  | succ k ih =>
    simp only [packWords]
    rw [List.take_append_of_le_length (by omega)]
    rw [List.drop_append_of_le_length (by omega)]
    rw [ih (l.drop 8) (by simp; omega)]

lemma packCoilBytes_eq (n : Nat) (data : List Nat) (hlen : data.length = n) :
    packCoilBytes n data =
      ((n + 7) / 8,
        packWords ((n + 7) / 8) (data ++ List.replicate (8 * ((n + 7) / 8) - n) 0)) := by
  by_cases h8 : n % 8 = 0
  · have hK : (n + 7) / 8 = n / 8 := by omega
    simp only [packCoilBytes, hlen]
    rw [if_neg (by omega)]
    rw [hK]
    rw [show 8 * (n / 8) - n = 0 from by omega]
    simp
  · have hK : (n + 7) / 8 = n / 8 + 1 := by omega
    have hle : data.length ≤ (n / 8 + 1) * 8 := by omega
    have hq : qresize data ((n / 8 + 1) * 8) =
        data ++ List.replicate ((n / 8 + 1) * 8 - n) 0 := by
      simp only [qresize, hlen]
      rw [if_pos (by omega)]
    have hqi : qinsert (data ++ List.replicate ((n / 8 + 1) * 8 - n) 0) n
        ((n / 8 + 1) * 8 - n) =
        data ++ List.replicate ((n / 8 + 1) * 8 - n) 0 ++ List.replicate ((n / 8 + 1) * 8 - n) 0 := by
      simp only [qinsert]
      rw [List.take_append_of_le_length (by omega)]
      rw [List.drop_append_of_le_length (by omega)]
      rw [show data.take n = data from by rw [← hlen, List.take_length]]
      rw [show data.drop n = [] from by rw [← hlen, List.drop_length]]
      simp [List.append_assoc]
    simp only [packCoilBytes, hlen]
    rw [if_pos (by omega)]
    rw [hq, hqi]
    rw [packWords_append_extra (n / 8 + 1)
      (data ++ List.replicate ((n / 8 + 1) * 8 - n) 0) _ (by simp [hlen]; omega)]
    rw [hK]
    rw [show (n / 8 + 1) * 8 - n = 8 * (n / 8 + 1) - n from by omega]

lemma unpack_pack_aux (k : Nat) : ∀ (vs : List Nat), 1 ≤ vs.length →
    8 * k < vs.length → vs.length ≤ 8 * (k + 1) → (∀ w ∈ vs, w ≤ 1) →
    writeAllBytes
      (packWords (k + 1) (vs ++ List.replicate (8 * (k + 1) - vs.length) 0)).reverse
      (vs.length - 8 * k) vs.length (List.replicate vs.length 0) = (vs, 0) := by
  induction k with
  | zero =>
    intro vs h1 h2 h3 hw
    simp only [packWords]
    rw [List.take_of_length_le (by simp; omega)]
    simp only [List.reverse_cons, List.reverse_nil, List.nil_append, Nat.mul_zero,
      Nat.sub_zero, writeAllBytes]
    rw [Prod.ext_iff]
    constructor
    · rw [writeByteBits_full _ _ _ (by simp)]
      rw [show (List.replicate vs.length 0).drop vs.length = [] from by simp]
      rw [List.append_nil]
      exact range_map_bitAt vs (List.replicate (8 * (0 + 1) - vs.length) 0) hw
    · rw [writeByteBits_snd]
      omega
  | succ k ih =>
    intro vs h1 h2 h3 hw
    have h8 : 8 ≤ vs.length := by omega
    rw [show packWords (k + 1 + 1) (vs ++ List.replicate (8 * (k + 1 + 1) - vs.length) 0) =
      byteFromWords ((vs ++ List.replicate (8 * (k + 1 + 1) - vs.length) 0).take 8) ::
        packWords (k + 1) ((vs ++ List.replicate (8 * (k + 1 + 1) - vs.length) 0).drop 8)
      from by rw [packWords]]
    rw [List.take_append_of_le_length h8, List.drop_append_of_le_length h8]
    rw [show 8 * (k + 1 + 1) - vs.length = 8 * (k + 1) - (vs.length - 8) from by omega]
    rw [List.reverse_cons]
    have hlenP : (packWords (k + 1) (vs.drop 8 ++
        List.replicate (8 * (k + 1) - (vs.length - 8)) 0)).reverse.length = k + 1 := by
      simp [packWords_length]
    have ihx := ih (vs.drop 8) (by simp; omega) (by simp; omega) (by simp; omega)
      (fun w hm => hw w ((List.drop_sublist 8 vs).subset hm))
    simp only [List.length_drop] at ihx
    rw [show vs.length - 8 - 8 * k = vs.length - 8 * (k + 1) from by omega] at ihx
    cases hrev : (packWords (k + 1) (vs.drop 8 ++
        List.replicate (8 * (k + 1) - (vs.length - 8)) 0)).reverse with
    | nil =>
      rw [hrev] at hlenP
      simp at hlenP
    | cons x rbs =>
      rw [writeAllBytes_append rbs x (byteFromWords (vs.take 8)) (vs.length - 8 * (k + 1))
        vs.length (List.replicate vs.length 0)]
      rw [hrev] at ihx
      have hrbs : rbs.length = k := by
        rw [hrev] at hlenP
        simp at hlenP
        omega
      have hrep : List.replicate vs.length (0 : Nat) =
          List.replicate 8 0 ++ List.replicate (vs.length - 8) 0 := by
        rw [← List.replicate_add]
        congr 1
        omega
      rw [hrep]
      have hshift := writeAllBytes_shift (x :: rbs) (vs.length - 8 * (k + 1))
        (List.replicate 8 0) (List.replicate (vs.length - 8) 0) (vs.length - 8)
        (by
          simp [totalBits, hrbs]
          omega)
      rw [show (List.replicate 8 (0 : Nat)).length + (vs.length - 8) = vs.length from by
        simp
        omega] at hshift
      rw [hshift]
      rw [ihx]
      dsimp only
      simp only [List.length_replicate, Nat.add_zero]
      rw [Prod.ext_iff]
      constructor
      · rw [writeByteBits_full _ _ _ (by simp)]
        rw [show (List.replicate 8 (0 : Nat) ++ vs.drop 8).drop 8 = vs.drop 8 from by
          rw [List.drop_append_of_le_length (by simp)]
          simp]
        have htake : (vs.take 8).length = 8 := by
          simp [List.length_take]
          omega
        have hmap := range_map_bitAt (vs.take 8) []
          (fun w hm => hw w ((List.take_sublist 8 vs).subset hm))
        rw [List.append_nil, htake] at hmap
        rw [hmap]
        exact List.take_append_drop 8 vs
      · rw [writeByteBits_snd]

/-- C5: packing count coil words with the Read Coils rule (eight words per
byte, bit 0 the first word of its group, groups in address order, trailing
pad bits zero) and then unpacking the resulting ceil(count/8) bytes with the
Write Multiple Coils unpacking loop reproduces the original word sequence
exactly, for every count in 1..1968 and every 0-or-1 word sequence of that
length. -/
theorem coils_pack_unpack_roundtrip (numberOfCoils : Nat) (vs : List Nat)
    (h1 : 1 ≤ numberOfCoils) (h2 : numberOfCoils ≤ 1968)
    (hlen : vs.length = numberOfCoils) (hw : ∀ w ∈ vs, w ≤ 1) :
    unpackCoils numberOfCoils (packCoilBytes numberOfCoils vs).2 = vs := by
  rw [packCoilBytes_eq numberOfCoils vs hlen]
  simp only [unpackCoils]
  rw [packWords_length]
  have hKsucc : (numberOfCoils + 7) / 8 = ((numberOfCoils + 7) / 8 - 1) + 1 := by omega
  have haux := unpack_pack_aux ((numberOfCoils + 7) / 8 - 1) vs
    (by rw [hlen]; omega) (by rw [hlen]; omega) (by rw [hlen]; omega) hw
  rw [hlen] at haux
  rw [← hKsucc] at haux
  rw [show numberOfCoils - 8 * ((numberOfCoils + 7) / 8 - 1) =
    ((8 : Int) - ((((numberOfCoils + 7) / 8 : Nat) : Int) * 8 - (numberOfCoils : Int))).toNat
    from by omega] at haux
  rw [haux]

/-- C5 witness: a concrete three-coil round trip through the packing and
unpacking algorithms. -/
theorem coils_pack_unpack_roundtrip_witness :
    unpackCoils 3 (packCoilBytes 3 [1, 0, 1]).2 = [1, 0, 1] :=
  coils_pack_unpack_roundtrip 3 [1, 0, 1] (by decide) (by decide) rfl (by decide)
